import Mathlib

/-!
Verification of the scaffolded-learning progression engine
(`src/hooks/useScaffoldedLearning.js`).

The hook is a pure state machine over a session-state record; each React
`useState` field becomes a field of `LearnState`, each handler becomes a
function `LearnState → LearnState` (plus a returned boolean for
`submitStep`).  The JavaScript `RegExp` platform facility used by
`validateStep` (`new RegExp(rule, 'is')` followed by `.test(code)`) is
modelled by a compiled regex AST with a Brzozowski-derivative matcher in
which the two flags are baked in: character comparison is case-insensitive
(`i`) and `.` matches every character including newline (`s`), and `test`
uses search semantics (a match anywhere in the string).
-/

namespace Scaffold

/-- One item of a regex character class: a single character or a range. -/
inductive ClsItem where
  | single (c : Char)
  | range (lo hi : Char)
deriving DecidableEq

/-- Case-insensitive membership of a character in a class item
(models the `i` flag's canonicalisation inside classes). -/
def itemMatches (c : Char) : ClsItem → Bool
  | .single a => a.toLower == c.toLower
  | .range lo hi =>
      (decide (lo ≤ c) && decide (c ≤ hi)) ||
      (decide (lo ≤ c.toLower) && decide (c.toLower ≤ hi)) ||
      (decide (lo ≤ c.toUpper) && decide (c.toUpper ≤ hi))

/-- Compiled regular expressions (the fragment of JavaScript regex syntax
used by validation rules).  `dot` matches every character because the
source always compiles with the `s` (dotAll) flag. -/
inductive Regex where
  | emp
  | eps
  | chr (c : Char)
  | dot
  | cls (neg : Bool) (items : List ClsItem)
  | seq (r₁ r₂ : Regex)
  | alt (r₁ r₂ : Regex)
  | star (r : Regex)
deriving DecidableEq

/-- Case-insensitive single-character comparison (models the `i` flag). -/
def chrMatches (a c : Char) : Bool := a.toLower == c.toLower

/-- Whether a character class (possibly negated) accepts a character. -/
def clsMatches (neg : Bool) (items : List ClsItem) (c : Char) : Bool :=
  items.any (itemMatches c) != neg

/-- Does the regex accept the empty string? -/
def nullable : Regex → Bool
  | .emp => false
  | .eps => true
  | .chr _ => false
  | .dot => false
  | .cls _ _ => false
  | .seq r₁ r₂ => nullable r₁ && nullable r₂
  | .alt r₁ r₂ => nullable r₁ || nullable r₂
  | .star _ => true

/-- Brzozowski derivative of a regex with respect to one character. -/
def deriv (r : Regex) (c : Char) : Regex :=
  match r with
  | .emp => .emp
  | .eps => .emp
  | .chr a => if chrMatches a c then .eps else .emp
  | .dot => .eps
  | .cls neg items => if clsMatches neg items c then .eps else .emp
  | .seq r₁ r₂ =>
      if nullable r₁ then .alt (.seq (deriv r₁ c) r₂) (deriv r₂ c)
      else .seq (deriv r₁ c) r₂
  | .alt r₁ r₂ => .alt (deriv r₁ c) (deriv r₂ c)
  | .star r₁ => .seq (deriv r₁ c) (.star r₁)

/-- Language semantics of compiled regexes (case-insensitive, dotAll). -/
inductive RMatch : Regex → List Char → Prop where
  | eps : RMatch .eps []
  | chr {a c : Char} : chrMatches a c = true → RMatch (.chr a) [c]
  | dot (c : Char) : RMatch .dot [c]
  | cls {neg : Bool} {items : List ClsItem} {c : Char} :
      clsMatches neg items c = true → RMatch (.cls neg items) [c]
  | seq {r₁ r₂ : Regex} {s₁ s₂ : List Char} :
      RMatch r₁ s₁ → RMatch r₂ s₂ → RMatch (.seq r₁ r₂) (s₁ ++ s₂)
  | altl {r₁ r₂ : Regex} {s : List Char} : RMatch r₁ s → RMatch (.alt r₁ r₂) s
  | altr {r₁ r₂ : Regex} {s : List Char} : RMatch r₂ s → RMatch (.alt r₁ r₂) s
  | star0 {r : Regex} : RMatch (.star r) []
  | stars {r : Regex} {s₁ s₂ : List Char} :
      RMatch r s₁ → RMatch (.star r) s₂ → RMatch (.star r) (s₁ ++ s₂)

/-- A derivation that matches the empty string forces `nullable`. -/
theorem rmatch_nil_nullable {r : Regex} {l : List Char} (h : RMatch r l) :
    l = [] → nullable r = true := by
  induction h with
  | eps => intro _; rfl
  | chr _ => intro he; cases he
  | dot _ => intro he; cases he
  | cls _ => intro he; cases he
  | seq h₁ h₂ ih₁ ih₂ =>
      intro he
      rcases List.append_eq_nil.mp he with ⟨he₁, he₂⟩
      simp [nullable, ih₁ he₁, ih₂ he₂]
  | altl h ih => intro he; simp [nullable, ih he]
  | altr h ih => intro he; simp [nullable, ih he]
  | star0 => intro _; rfl
  | stars h₁ h₂ ih₁ ih₂ => intro _; rfl

/-- `nullable` decides whether the empty string is in the language. -/
theorem nullable_iff (r : Regex) : nullable r = true ↔ RMatch r [] := by
  constructor
  · intro h
    induction r with
    | emp => simp [nullable] at h
    | eps => exact RMatch.eps
    | chr a => simp [nullable] at h
    | dot => simp [nullable] at h
    | cls neg items => simp [nullable] at h
    | seq r₁ r₂ ih₁ ih₂ =>
        simp only [nullable, Bool.and_eq_true] at h
        exact (List.nil_append ([] : List Char)) ▸ RMatch.seq (ih₁ h.1) (ih₂ h.2)
    | alt r₁ r₂ ih₁ ih₂ =>
        simp only [nullable, Bool.or_eq_true] at h
        rcases h with h₁ | h₂
        · exact RMatch.altl (ih₁ h₁)
        · exact RMatch.altr (ih₂ h₂)
    | star r ih => exact RMatch.star0
  · intro h
    exact rmatch_nil_nullable h rfl

/-- Soundness of the derivative: a match of `deriv r c` extends to a match
of `r` on the string with `c` put back in front. -/
theorem deriv_sound {r : Regex} {c : Char} {s : List Char}
    (h : RMatch (deriv r c) s) : RMatch r (c :: s) := by
  induction r generalizing s with
  | emp => cases h
  | eps => cases h
  | chr a =>
      simp only [deriv] at h
      by_cases hm : chrMatches a c = true
      · rw [if_pos hm] at h
        cases h
        exact RMatch.chr hm
      · rw [if_neg hm] at h
        cases h
  | dot =>
      simp only [deriv] at h
      cases h
      exact RMatch.dot c
  | cls neg items =>
      simp only [deriv] at h
      by_cases hm : clsMatches neg items c = true
      · rw [if_pos hm] at h
        cases h
        exact RMatch.cls hm
      · rw [if_neg hm] at h
        cases h
  | seq r₁ r₂ ih₁ ih₂ =>
      simp only [deriv] at h
      by_cases hn : nullable r₁ = true
      · rw [if_pos hn] at h
        cases h with
        | altl h' =>
            cases h' with
            | seq h₁ h₂ =>
                rename_i s₁ s₂
                exact List.cons_append c s₁ s₂ ▸ RMatch.seq (ih₁ h₁) h₂
        | altr h' =>
            have h0 : RMatch r₁ [] := (nullable_iff r₁).mp hn
            exact List.nil_append (c :: s) ▸ RMatch.seq h0 (ih₂ h')
      · rw [if_neg hn] at h
        cases h with
        | seq h₁ h₂ =>
            rename_i s₁ s₂
            exact List.cons_append c s₁ s₂ ▸ RMatch.seq (ih₁ h₁) h₂
  | alt r₁ r₂ ih₁ ih₂ =>
      cases h with
      | altl h' => exact RMatch.altl (ih₁ h')
      | altr h' => exact RMatch.altr (ih₂ h')
  | star r₁ ih =>
      cases h with
      | seq h₁ h₂ =>
          rename_i s₁ s₂
          exact List.cons_append c s₁ s₂ ▸ RMatch.stars (ih h₁) h₂

/-- Completeness of the derivative: a match of `r` on a non-empty string
restricts to a match of the derivative on the tail. -/
theorem deriv_complete {r : Regex} {l : List Char} (h : RMatch r l) :
    ∀ c s, l = c :: s → RMatch (deriv r c) s := by
  induction h with
  | eps => intro c s he; cases he
  | chr hm =>
      intro c s he
      rename_i a c'
      cases he
      simp only [deriv, if_pos hm]
      exact RMatch.eps
  | dot c' =>
      intro c s he
      cases he
      simp only [deriv]
      exact RMatch.eps
  | cls hm =>
      intro c s he
      cases he
      simp only [deriv, if_pos hm]
      exact RMatch.eps
  | seq h₁ h₂ ih₁ ih₂ =>
      intro c s he
      rename_i r₁ r₂ s₁ s₂
      simp only [deriv]
      cases s₁ with
      | nil =>
          simp only [List.nil_append] at he
          have hn : nullable r₁ = true := (nullable_iff r₁).mpr h₁
          rw [if_pos hn]
          exact RMatch.altr (ih₂ c s he)
      | cons a s₁' =>
          rw [List.cons_append] at he
          injection he with hac hs
          subst hac
          subst hs
          have hseq : RMatch (Regex.seq (deriv r₁ a) r₂) (s₁' ++ s₂) :=
            RMatch.seq (ih₁ a s₁' rfl) h₂
          by_cases hn : nullable r₁ = true
          · rw [if_pos hn]; exact RMatch.altl hseq
          · rw [if_neg hn]; exact hseq
  | altl h' ih =>
      intro c s he
      simp only [deriv]
      exact RMatch.altl (ih c s he)
  | altr h' ih =>
      intro c s he
      simp only [deriv]
      exact RMatch.altr (ih c s he)
  | star0 => intro c s he; cases he
  | stars h₁ h₂ ih₁ ih₂ =>
      intro c s he
      rename_i r₁ s₁ s₂
      cases s₁ with
      | nil =>
          simp only [List.nil_append] at he
          exact ih₂ c s he
      | cons a s₁' =>
          rw [List.cons_append] at he
          injection he with hac hs
          subst hac
          subst hs
          simp only [deriv]
          exact RMatch.seq (ih₁ a s₁' rfl) h₂

/-- Does some prefix of the character list match the regex? -/
def matchPre : Regex → List Char → Bool
  | r, [] => nullable r
  | r, c :: cs => nullable r || matchPre (deriv r c) cs

/-- `matchPre` finds exactly the matches that start at the beginning of the
string (a matching prefix may be any initial segment, also empty). -/
theorem matchPre_iff (cs : List Char) (r : Regex) :
    matchPre r cs = true ↔ ∃ p q : List Char, cs = p ++ q ∧ RMatch r p := by
  induction cs generalizing r with
  | nil =>
      simp only [matchPre, nullable_iff]
      constructor
      · intro h
        exact ⟨[], [], rfl, h⟩
      · rintro ⟨p, q, hpq, hm⟩
        rcases List.append_eq_nil.mp hpq.symm with ⟨hp, _⟩
        exact hp ▸ hm
  | cons c cs ih =>
      simp only [matchPre, Bool.or_eq_true, nullable_iff, ih]
      constructor
      · rintro (h | ⟨p, q, hpq, hm⟩)
        · exact ⟨[], c :: cs, rfl, h⟩
        · exact ⟨c :: p, q, by rw [hpq, List.cons_append], deriv_sound hm⟩
      · rintro ⟨p, q, hpq, hm⟩
        cases p with
        | nil =>
            simp only [List.nil_append] at hpq
            exact Or.inl hm
        | cons a p' =>
            rw [List.cons_append] at hpq
            injection hpq with hac hs
            subst hac
            exact Or.inr ⟨p', q, hs, deriv_complete hm c p' rfl⟩

/-- Search: does the regex match anywhere in the character list?
This is the semantics of JavaScript `RegExp.prototype.test`. -/
def searchFrom : Regex → List Char → Bool
  | r, [] => matchPre r []
  | r, c :: cs => matchPre r (c :: cs) || searchFrom r cs

/-- `searchFrom` finds exactly the matches occurring anywhere in the string
(search semantics: some substring, at any position, is in the language). -/
theorem searchFrom_iff (cs : List Char) (r : Regex) :
    searchFrom r cs = true ↔
      ∃ pre mid suf : List Char, cs = pre ++ mid ++ suf ∧ RMatch r mid := by
  induction cs with
  | nil =>
      simp only [searchFrom, matchPre_iff]
      constructor
      · rintro ⟨p, q, hpq, hm⟩
        exact ⟨[], p, q, by simpa using hpq, hm⟩
      · rintro ⟨pre, mid, suf, hpq, hm⟩
        rcases List.append_eq_nil.mp hpq.symm with ⟨hp, hq⟩
        rcases List.append_eq_nil.mp hp with ⟨_, hm'⟩
        exact ⟨mid, [], by simp [hm'], hm⟩
  | cons c cs ih =>
      simp only [searchFrom, Bool.or_eq_true, matchPre_iff, ih]
      constructor
      · rintro (⟨p, q, hpq, hm⟩ | ⟨pre, mid, suf, hpq, hm⟩)
        · exact ⟨[], p, q, by simpa using hpq, hm⟩
        · exact ⟨c :: pre, mid, suf, by rw [hpq]; simp [List.cons_append], hm⟩
      · rintro ⟨pre, mid, suf, hpq, hm⟩
        cases pre with
        | nil =>
            simp only [List.nil_append] at hpq
            exact Or.inl ⟨mid, suf, hpq, hm⟩
        | cons a pre' =>
            simp only [List.cons_append] at hpq
            injection hpq with hac hs
            subst hac
            exact Or.inr ⟨pre', mid, suf, hs, hm⟩

/-- The modelled `RegExp.prototype.test` for a pattern compiled with the
`i` and `s` flags: search anywhere in the string. -/
def regexTest (r : Regex) (s : String) : Bool :=
  searchFrom r s.data

/-! ### Pattern compilation

A recursive-descent compiler from pattern strings to `Regex`, modelling the
JavaScript `new RegExp(pattern, 'is')` constructor on the fragment of the
syntax that validation rules use: literals, `.` (dotAll), escapes
(`\s \S \d \D \w \W \n \t \r` and escaped punctuation), character classes
with ranges and negation, grouping `( )` (also `(?: )`), alternation `|`,
and the postfix operators `* + ?`.  Constructs outside the fragment
(anchors, backreferences, quantifier braces as quantifiers, `\b`) are
reported as compilation failures (`none`), as is genuinely malformed
syntax such as an unclosed group or a dangling `*` — the latter is what
makes the `RegExp` constructor throw in the source, where the exception is
caught and validation evaluates to `false`. -/

/-- Items denoted by the `\d` escape. -/
def digitItems : List ClsItem := [.range '0' '9']

/-- Items denoted by the `\w` escape. -/
def wordItems : List ClsItem :=
  [.range 'a' 'z', .range 'A' 'Z', .range '0' '9', .single '_']

/-- Items denoted by the `\s` escape (the ASCII whitespace characters). -/
def spaceItems : List ClsItem :=
  [.single ' ', .single '\t', .single '\n', .single '\r',
   .single (Char.ofNat 11), .single (Char.ofNat 12)]

/-- Compile a top-level escape sequence `\c`. -/
def parseEsc (c : Char) : Option Regex :=
  match c with
  | 'd' => some (.cls false digitItems)
  | 'D' => some (.cls true digitItems)
  | 'w' => some (.cls false wordItems)
  | 'W' => some (.cls true wordItems)
  | 's' => some (.cls false spaceItems)
  | 'S' => some (.cls true spaceItems)
  | 'n' => some (.chr '\n')
  | 't' => some (.chr '\t')
  | 'r' => some (.chr '\r')
  | _ => if c.isAlphanum then none else some (.chr c)

/-- Compile an escape sequence occurring inside a character class. -/
def parseClsEsc (c : Char) : Option (List ClsItem) :=
  match c with
  | 'd' => some digitItems
  | 'w' => some wordItems
  | 's' => some spaceItems
  | 'n' => some [.single '\n']
  | 't' => some [.single '\t']
  | 'r' => some [.single '\r']
  | _ => if c.isAlphanum then none else some [.single c]

/-- Parse the items of a character class up to the closing `]`. -/
def parseClsItems : Nat → List Char → Option (List ClsItem × List Char)
  | 0, _ => none
  | fuel + 1, cs =>
      match cs with
      | [] => none  -- unterminated class: the RegExp constructor throws
      | ']' :: rest => some ([], rest)
      | '\\' :: e :: rest =>
          match parseClsEsc e with
          | none => none
          | some items =>
              match parseClsItems fuel rest with
              | none => none
              | some (more, rest') => some (items ++ more, rest')
      | a :: '-' :: b :: rest =>
          if b = ']' then
            -- a trailing `-` is a literal: items `a` and `-`, then the class ends
            some ([.single a, .single '-'], rest)
          else if a ≤ b then
            match parseClsItems fuel rest with
            | none => none
            | some (more, rest') => some (.range a b :: more, rest')
          else none  -- reversed range: the RegExp constructor throws
      | a :: rest =>
          match parseClsItems fuel rest with
          | none => none
          | some (more, rest') => some (.single a :: more, rest')

/-- Parse a character class body (after the opening `[`). -/
def parseCls (fuel : Nat) (cs : List Char) : Option (Regex × List Char) :=
  match cs with
  | '^' :: rest =>
      match parseClsItems fuel rest with
      | none => none
      | some (items, rest') => some (.cls true items, rest')
  | _ =>
      match parseClsItems fuel cs with
      | none => none
      | some (items, rest') => some (.cls false items, rest')

mutual

/-- Parse an alternation (the whole grammar at one nesting level). -/
def parseAlt : Nat → List Char → Option (Regex × List Char)
  | 0, _ => none
  | fuel + 1, cs =>
      match parseSeq fuel cs with
      | none => none
      | some (r, rest) => parseAltRest fuel r rest

/-- Parse the remaining `|`-separated branches of an alternation. -/
def parseAltRest : Nat → Regex → List Char → Option (Regex × List Char)
  | 0, _, _ => none
  | fuel + 1, acc, cs =>
      match cs with
      | '|' :: rest =>
          match parseSeq fuel rest with
          | none => none
          | some (r, rest') => parseAltRest fuel (.alt acc r) rest'
      | _ => some (acc, cs)

/-- Parse a concatenation of postfixed atoms. -/
def parseSeq : Nat → List Char → Option (Regex × List Char)
  | 0, _ => none
  | fuel + 1, cs => parseSeqRest fuel .eps cs

/-- Parse atoms (with their `* + ?` postfixes) until the branch ends. -/
def parseSeqRest : Nat → Regex → List Char → Option (Regex × List Char)
  | 0, _, _ => none
  | _ + 1, acc, [] => some (acc, [])
  | fuel + 1, acc, c :: cs =>
      if c = ')' ∨ c = '|' then some (acc, c :: cs)
      else
        match parseAtom fuel (c :: cs) with
        | none => none
        | some (r, rest) =>
            match rest with
            | '*' :: rest' => parseSeqRest fuel (.seq acc (.star r)) rest'
            | '+' :: rest' => parseSeqRest fuel (.seq acc (.seq r (.star r))) rest'
            | '?' :: rest' => parseSeqRest fuel (.seq acc (.alt r .eps)) rest'
            | _ => parseSeqRest fuel (.seq acc r) rest

/-- Parse one atom: a group, a class, `.`, an escape, or a literal. -/
def parseAtom : Nat → List Char → Option (Regex × List Char)
  | 0, _ => none
  | fuel + 1, cs =>
      match cs with
      | [] => none
      | '(' :: rest =>
          let body := match rest with
            | '?' :: ':' :: r => r
            | _ => rest
          match parseAlt fuel body with
          | none => none
          | some (r, rest') =>
              match rest' with
              | ')' :: rest'' => some (r, rest'')
              | _ => none
      | ')' :: _ => none
      | '|' :: _ => none
      | '*' :: _ => none
      | '+' :: _ => none
      | '?' :: _ => none
      | '^' :: _ => none
      | '$' :: _ => none
      | '[' :: rest => parseCls fuel rest
      | '.' :: rest => some (.dot, rest)
      | '\\' :: [] => none
      | '\\' :: e :: rest =>
          match parseEsc e with
          | none => none
          | some r => some (r, rest)
      | c :: rest => some (.chr c, rest)

end

/-- Model of the JavaScript `new RegExp(pattern, 'is')` constructor:
`none` when compilation fails (the constructor throws). -/
def compileRegex (pattern : String) : Option Regex :=
  let cs := pattern.data
  match parseAlt (cs.length * 8 + 32) cs with
  | some (r, []) => some r
  | _ => none

/-! ### The progression engine

Shallow embedding of `useScaffoldedLearning`.  Each `useState` field is a
field of `LearnState`; each handler is a function on `LearnState`.  The
per-step code object (keyed by `stepId`) is an association list.  The
`setTimeout` scheduled by a non-final successful submission is modelled by
a counter of pending message-clear callbacks, `pendingClears`; the
environment event `Op.tick` fires one such callback. -/

/-- The literal messages of the source. -/
def congratsMsg : String := "Congratulations! You have completed the problem!"

/-- Message set when a non-final step is validated successfully. -/
def correctMsg : String := "Correct! Moving to the next step..."

/-- Message set when validation fails. -/
def incorrectMsg : String :=
  "Incorrect. Please check your code and try again. Use hints if you need help!"

/-- A step of a problem (`stepId`, `placeholderCode`, `validationType`,
`validationRule`, `hints`, plus display text the engine never reads). -/
structure Step where
  stepId : Nat
  instruction : String
  placeholderCode : Option String
  validationType : String
  validationRule : String
  hints : List String
deriving DecidableEq

/-- A problem: opaque metadata plus the ordered list of steps. -/
structure Problem where
  id : String
  title : String
  difficulty : String
  description : String
  steps : List Step
deriving DecidableEq

/-- The per-step code object, keyed by `stepId`. -/
abbrev CodeMap := List (Nat × String)

/-- `m[k] = v` on a JavaScript object: overwrite or append the key. -/
def setKey (m : CodeMap) (k : Nat) (v : String) : CodeMap :=
  match m with
  | [] => [(k, v)]
  | (k', v') :: rest => if k' = k then (k, v) :: rest else (k', v') :: setKey rest k v

/-- `m[k]` on a JavaScript object: `none` when the key is absent. -/
def getKey (m : CodeMap) (k : Nat) : Option String :=
  match m with
  | [] => none
  | (k', v') :: rest => if k' = k then some v' else getKey rest k

/-- The session state held by the hook (one field per `useState`), plus the
count of scheduled, not yet fired, message-clear timeouts. -/
structure LearnState where
  currentStepIndex : Nat
  userCodeByStep : CodeMap
  isHintVisible : Bool
  currentHintIndex : Nat
  validationMessage : Option String
  isValidationError : Bool
  isCompleted : Bool
  pendingClears : Nat
deriving DecidableEq

/-- The initial code object: each step's `placeholderCode || ''`. -/
def initCode (p : Problem) : CodeMap :=
  p.steps.foldl (fun m st => setKey m st.stepId (st.placeholderCode.getD "")) []

/-- The state constructed when the hook binds a problem. -/
def initState (p : Problem) : LearnState :=
  { currentStepIndex := 0
    userCodeByStep := initCode p
    isHintVisible := false
    currentHintIndex := 0
    validationMessage := none
    isValidationError := false
    isCompleted := false
    pendingClears := 0 }

/-- Derived: `problem.steps[currentStepIndex]` (`none` = `undefined`). -/
def currentStep (p : Problem) (s : LearnState) : Option Step :=
  p.steps.get? s.currentStepIndex

/-- Derived: `userCodeByStep[currentStep?.stepId] || ''`. -/
def userCode (p : Problem) (s : LearnState) : String :=
  match currentStep p s with
  | none => ""
  | some st => (getKey s.userCodeByStep st.stepId).getD ""

/-- Derived: `problem.steps.length`. -/
def totalSteps (p : Problem) : Nat := p.steps.length

/-- Derived: `currentStepIndex === totalSteps - 1` (JavaScript integer
arithmetic, hence the comparison over `Int`). -/
def isLastStep (p : Problem) (s : LearnState) : Bool :=
  (s.currentStepIndex : Int) == (totalSteps p : Int) - 1

/-- Derived: `((currentStepIndex + (isCompleted ? 1 : 0)) / totalSteps) * 100`,
JavaScript number arithmetic modelled over `ℚ`. -/
def progress (p : Problem) (s : LearnState) : ℚ :=
  (((s.currentStepIndex : ℚ) + (if s.isCompleted then 1 else 0)) / (totalSteps p : ℚ)) * 100

/-- JavaScript truthiness of the `validationMessage` value
(`null` and `''` are falsy). -/
def msgTruthy : Option String → Bool
  | none => false
  | some m => m != ""

/-- `updateCode(newCode)`: store the code under the current step's id and
dismiss pending feedback; a no-op when there is no current step. -/
def updateCode (p : Problem) (s : LearnState) (newCode : String) : LearnState :=
  match currentStep p s with
  | none => s
  | some st =>
      let s' := { s with userCodeByStep := setKey s.userCodeByStep st.stepId newCode }
      if msgTruthy s'.validationMessage then
        { s' with validationMessage := none, isValidationError := false }
      else s'

/-- `toggleHint()`. -/
def toggleHint (s : LearnState) : LearnState :=
  { s with isHintVisible := !s.isHintVisible }

/-- `showNextHint()`: advance `currentHintIndex` while it is below
`hints.length - 1` (JavaScript integer arithmetic, hence `Int`). -/
def showNextHint (p : Problem) (s : LearnState) : LearnState :=
  match currentStep p s with
  | none => s
  | some st =>
      let maxHints : Int := st.hints.length
      if (s.currentHintIndex : Int) < maxHints - 1 then
        { s with currentHintIndex := s.currentHintIndex + 1 }
      else s

/-- `validateStep()`: test the current step's rule, compiled with flags
`i` and `s`, against the current code; `false` when there is no current
step, when the `validationType` is not `regex`, or when the rule fails to
compile (the caught `RegExp` exception). -/
def validateStep (p : Problem) (s : LearnState) : Bool :=
  match currentStep p s with
  | none => false
  | some st =>
      if st.validationType == "regex" then
        match compileRegex st.validationRule with
        | some r => regexTest r (userCode p s)
        | none => false
      else false

/-- `submitStep()`: validate, then either complete (last step), advance
(scheduling the 2-second message clear), or report failure.  Returns the
new state together with the boolean result. -/
def submitStep (p : Problem) (s : LearnState) : LearnState × Bool :=
  let isValid := validateStep p s
  if isValid then
    if isLastStep p s then
      ({ s with isCompleted := true
                validationMessage := some congratsMsg
                isValidationError := false }, true)
    else
      ({ s with currentStepIndex := s.currentStepIndex + 1
                validationMessage := some correctMsg
                isValidationError := false
                isHintVisible := false
                currentHintIndex := 0
                pendingClears := s.pendingClears + 1 }, true)
  else
    ({ s with validationMessage := some incorrectMsg
              isValidationError := true }, false)

/-- `goToStep(stepIndex)`: navigate to any index in
`[0, currentStepIndex]`, clearing hint and feedback state; out-of-range
requests are ignored. -/
def goToStep (_p : Problem) (s : LearnState) (stepIndex : Int) : LearnState :=
  if 0 ≤ stepIndex ∧ stepIndex ≤ (s.currentStepIndex : Int) then
    { s with currentStepIndex := stepIndex.toNat
             isHintVisible := false
             currentHintIndex := 0
             validationMessage := none
             isValidationError := false }
  else s

/-- `resetProblem()`: reinitialize every `useState` field from the bound
problem.  Timeouts already scheduled are not cancelled. -/
def resetProblem (p : Problem) (s : LearnState) : LearnState :=
  { currentStepIndex := 0
    userCodeByStep := initCode p
    isHintVisible := false
    currentHintIndex := 0
    validationMessage := none
    isValidationError := false
    isCompleted := false
    pendingClears := s.pendingClears }

/-- One scheduled `setTimeout` callback fires: the source callback runs
`setValidationMessage(null)` unconditionally. -/
def fireClear (s : LearnState) : LearnState :=
  if 0 < s.pendingClears then
    { s with validationMessage := none, pendingClears := s.pendingClears - 1 }
  else s

/-- The source `validateStep` invokes no state setter, so its embedding
pairs the unchanged state with the boolean result. -/
def validateStepOp (p : Problem) (s : LearnState) : LearnState × Bool :=
  (s, validateStep p s)

/-- Events of a session: the six handlers plus the timer callback. -/
inductive Op where
  | update (newCode : String)
  | toggle
  | showHint
  | validate
  | submit
  | goTo (stepIndex : Int)
  | reset
  | tick
deriving DecidableEq

/-- Apply one event to the session state. -/
def applyOp (p : Problem) (s : LearnState) : Op → LearnState
  | .update c => updateCode p s c
  | .toggle => toggleHint s
  | .showHint => showNextHint p s
  | .validate => (validateStepOp p s).1
  | .submit => (submitStep p s).1
  | .goTo i => goToStep p s i
  | .reset => resetProblem p s
  | .tick => fireClear s

/-- Run a sequence of events from the freshly constructed state: the
reachable states of a session bound to `p` are exactly the values of
`runTrace p`. -/
def runTrace (p : Problem) (ops : List Op) : LearnState :=
  ops.foldl (applyOp p) (initState p)

/-! ### Concrete fixtures used by witnesses and counterexamples -/

/-- A step whose placeholder code already satisfies its rule. -/
def stepA : Step :=
  { stepId := 1, instruction := "", placeholderCode := some "a",
    validationType := "regex", validationRule := "a", hints := [] }

/-- A second step whose placeholder code already satisfies its rule. -/
def stepB : Step :=
  { stepId := 2, instruction := "", placeholderCode := some "b",
    validationType := "regex", validationRule := "b", hints := [] }

/-- A step whose placeholder code does not satisfy its rule. -/
def stepZ : Step :=
  { stepId := 2, instruction := "", placeholderCode := some "b",
    validationType := "regex", validationRule := "z", hints := [] }

/-- A step with three hints. -/
def stepH : Step :=
  { stepId := 1, instruction := "", placeholderCode := some "",
    validationType := "regex", validationRule := "a",
    hints := ["first hint", "second hint", "third hint"] }

/-- A step whose rule matches in the middle of its placeholder code. -/
def stepMid : Step :=
  { stepId := 1, instruction := "", placeholderCode := some "abc",
    validationType := "regex", validationRule := "b", hints := [] }

/-- A step whose rule does not compile (unclosed group). -/
def stepBad : Step :=
  { stepId := 1, instruction := "", placeholderCode := some "a",
    validationType := "regex", validationRule := "(", hints := [] }

/-- A single step that never validates. -/
def stepFail : Step :=
  { stepId := 1, instruction := "", placeholderCode := some "a",
    validationType := "regex", validationRule := "z", hints := [] }

/-- A two-step problem where both steps validate on their placeholders. -/
def P2 : Problem :=
  { id := "p2", title := "", difficulty := "", description := "", steps := [stepA, stepB] }

/-- A one-step problem with three hints. -/
def P3 : Problem :=
  { id := "p3", title := "", difficulty := "", description := "", steps := [stepH] }

/-- A two-step problem whose second step never validates. -/
def PF : Problem :=
  { id := "pf", title := "", difficulty := "", description := "", steps := [stepA, stepZ] }

/-- A problem with no steps at all. -/
def Pempty : Problem :=
  { id := "p0", title := "", difficulty := "", description := "", steps := [] }

/-- A one-step problem whose rule matches mid-string. -/
def P5 : Problem :=
  { id := "p5", title := "", difficulty := "", description := "", steps := [stepMid] }

/-- A one-step problem with a malformed rule. -/
def P6 : Problem :=
  { id := "p6", title := "", difficulty := "", description := "", steps := [stepBad] }

/-- A one-step problem that never validates. -/
def P8 : Problem :=
  { id := "p8", title := "", difficulty := "", description := "", steps := [stepFail] }

/-! ### Frame lemmas for the operations -/

/-- `updateCode` changes neither the step index, the hint state, the
completion flag, nor the pending timeouts. -/
theorem updateCode_frame (p : Problem) (s : LearnState) (c : String) :
    (updateCode p s c).currentStepIndex = s.currentStepIndex ∧
    (updateCode p s c).isCompleted = s.isCompleted ∧
    (updateCode p s c).currentHintIndex = s.currentHintIndex ∧
    (updateCode p s c).pendingClears = s.pendingClears := by
  unfold updateCode
  split
  · exact ⟨rfl, rfl, rfl, rfl⟩
  · dsimp only
    split
    · exact ⟨rfl, rfl, rfl, rfl⟩
    · exact ⟨rfl, rfl, rfl, rfl⟩

/-- `showNextHint` changes only `currentHintIndex`. -/
theorem showNextHint_frame (p : Problem) (s : LearnState) :
    (showNextHint p s).currentStepIndex = s.currentStepIndex ∧
    (showNextHint p s).isCompleted = s.isCompleted ∧
    (showNextHint p s).userCodeByStep = s.userCodeByStep := by
  unfold showNextHint
  split
  · exact ⟨rfl, rfl, rfl⟩
  · dsimp only
    split
    · exact ⟨rfl, rfl, rfl⟩
    · exact ⟨rfl, rfl, rfl⟩

/-- `toggleHint` changes only `isHintVisible`. -/
theorem toggleHint_frame (s : LearnState) :
    (toggleHint s).currentStepIndex = s.currentStepIndex ∧
    (toggleHint s).isCompleted = s.isCompleted := ⟨rfl, rfl⟩

/-- The timer callback changes only `validationMessage` (and the count of
pending callbacks). -/
theorem fireClear_frame (s : LearnState) :
    (fireClear s).currentStepIndex = s.currentStepIndex ∧
    (fireClear s).isCompleted = s.isCompleted := by
  unfold fireClear
  split
  · exact ⟨rfl, rfl⟩
  · exact ⟨rfl, rfl⟩

/-- `goToStep` never raises the step index. -/
theorem goToStep_le (p : Problem) (s : LearnState) (i : Int) :
    (goToStep p s i).currentStepIndex ≤ s.currentStepIndex := by
  unfold goToStep
  split
  · rename_i h
    dsimp only
    omega
  · exact Nat.le_refl _

/-- `submitStep` leaves the step index unchanged or advances it by one,
and the advance happens only when the current step is not the last. -/
theorem submitStep_index (p : Problem) (s : LearnState) :
    (submitStep p s).1.currentStepIndex = s.currentStepIndex ∨
    ((submitStep p s).1.currentStepIndex = s.currentStepIndex + 1 ∧
      isLastStep p s = false) := by
  unfold submitStep
  dsimp only
  split
  · split
    · exact Or.inl rfl
    · rename_i h
      exact Or.inr ⟨rfl, Bool.not_eq_true _ ▸ h⟩
  · exact Or.inl rfl

/-- `submitStep` never un-completes a session. -/
theorem submitStep_isCompleted (p : Problem) (s : LearnState)
    (h : s.isCompleted = true) : (submitStep p s).1.isCompleted = true := by
  unfold submitStep
  dsimp only
  split
  · split
    · rfl
    · exact h
  · exact h

/-- One event preserves the strict index bound (for a nonempty problem). -/
theorem applyOp_index_lt (p : Problem) (hp : 0 < p.steps.length)
    (s : LearnState) (op : Op) (h : s.currentStepIndex < p.steps.length) :
    (applyOp p s op).currentStepIndex < p.steps.length := by
  cases op with
  | update c => rw [show (applyOp p s (.update c)).currentStepIndex = s.currentStepIndex from
      (updateCode_frame p s c).1]; exact h
  | toggle => exact h
  | showHint => rw [show (applyOp p s .showHint).currentStepIndex = s.currentStepIndex from
      (showNextHint_frame p s).1]; exact h
  | validate => exact h
  | submit =>
      rcases submitStep_index p s with h1 | ⟨h1, h2⟩
      · rw [show (applyOp p s .submit).currentStepIndex = s.currentStepIndex from h1]; exact h
      · unfold isLastStep totalSteps at h2
        simp only [beq_eq_false_iff_ne, ne_eq] at h2
        have h1' : (applyOp p s .submit).currentStepIndex = s.currentStepIndex + 1 := h1
        omega
  | goTo i => exact Nat.lt_of_le_of_lt (goToStep_le p s i) h
  | reset => exact hp
  | tick => rw [show (applyOp p s .tick).currentStepIndex = s.currentStepIndex from
      (fireClear_frame s).1]; exact h

/-- Every state reachable by a session bound to a nonempty problem keeps
`currentStepIndex` strictly below the number of steps. -/
theorem runTrace_index_lt (p : Problem) (hp : 0 < p.steps.length) (ops : List Op) :
    (runTrace p ops).currentStepIndex < p.steps.length := by
  unfold runTrace
  have key : ∀ (l : List Op) (s : LearnState), s.currentStepIndex < p.steps.length →
      (l.foldl (applyOp p) s).currentStepIndex < p.steps.length := by
    intro l
    induction l with
    | nil => intro s h; exact h
    | cons op l ih => intro s h; exact ih _ (applyOp_index_lt p hp s op h)
  exact key ops (initState p) hp

/-! ### The claims -/

/-- C1, counterexample: the step-navigation operation `goToStep` does
lower `currentStepIndex`.  On the two-step problem `P2`, a successful
submission raises the index to 1, after which `goToStep(0)` lowers it back
to 0 without any reset — refuting the claim that only `reset()` can
decrease the index. -/
theorem c1_goToStep_lowers_index :
    (runTrace P2 [Op.submit]).currentStepIndex = 1 ∧
    (runTrace P2 [Op.submit, Op.goTo 0]).currentStepIndex = 0 := by
  decide

/-- C1, amended: `currentStepIndex` never decreases under any engine
operation except `resetProblem` and `goToStep`; the navigation operation
`goToStep` may lower it (to any already-unlocked index). -/
theorem c1_monotonic_except_goTo_reset (p : Problem) (s : LearnState) (op : Op)
    (hg : ∀ i, op ≠ Op.goTo i) (hr : op ≠ Op.reset) :
    s.currentStepIndex ≤ (applyOp p s op).currentStepIndex := by
  cases op with
  | update c => rw [show (applyOp p s (.update c)).currentStepIndex = s.currentStepIndex from
      (updateCode_frame p s c).1]
  | toggle => exact Nat.le_refl _
  | showHint => rw [show (applyOp p s .showHint).currentStepIndex = s.currentStepIndex from
      (showNextHint_frame p s).1]
  | validate => exact Nat.le_refl _
  | submit =>
      have h := submitStep_index p s
      rcases h with h1 | ⟨h1, _⟩ <;>
        · have h1' : (applyOp p s .submit).currentStepIndex = _ := h1
          omega
  | goTo i => exact absurd rfl (hg i)
  | reset => exact absurd rfl hr
  | tick => rw [show (applyOp p s .tick).currentStepIndex = s.currentStepIndex from
      (fireClear_frame s).1]

/-- C1, witness: the amended monotonicity instantiated at a concrete
state and operation. -/
theorem c1_monotonic_witness :
    (initState P2).currentStepIndex ≤ (applyOp P2 (initState P2) Op.toggle).currentStepIndex :=
  c1_monotonic_except_goTo_reset P2 (initState P2) Op.toggle
    (fun _ h => Op.noConfusion h) (fun h => Op.noConfusion h)

/-- C2, counterexample: `progress` is a percentage, not a fraction, and
completing the problem and then navigating back with `goToStep(0)` leaves
`isCompleted = true` while `progress = 50`: the claimed formula
`(currentStepIndex + 1) / totalSteps` would give `1/2`, and the claimed
equivalence `progress = 1.0 ↔ isCompleted` fails in both readings
(`progress` is neither `1` nor the maximal value `100` here). -/
theorem c2_percent_not_fraction :
    progress P2 (runTrace P2 [Op.submit, Op.submit, Op.goTo 0]) = 50 ∧
    (runTrace P2 [Op.submit, Op.submit, Op.goTo 0]).isCompleted = true ∧
    progress P2 (runTrace P2 [Op.submit, Op.submit, Op.goTo 0]) ≠ 1 ∧
    progress P2 (runTrace P2 [Op.submit, Op.submit, Op.goTo 0]) ≠ (1 : ℚ) / 2 := by
  have h1 : (runTrace P2 [Op.submit, Op.submit, Op.goTo 0]).currentStepIndex = 0 := by
    decide
  have h2 : (runTrace P2 [Op.submit, Op.submit, Op.goTo 0]).isCompleted = true := by
    decide
  have hpr : progress P2 (runTrace P2 [Op.submit, Op.submit, Op.goTo 0]) = 50 := by
    unfold progress
    rw [h1, h2]
    norm_num [totalSteps, P2]
  refine ⟨hpr, h2, ?_, ?_⟩
  · rw [hpr]; norm_num
  · rw [hpr]; norm_num

/-- C2, amended: in every reachable state of a session bound to a
nonempty problem, the derived progress value equals
`((currentStepIndex + (isCompleted ? 1 : 0)) / totalSteps) * 100`, lies in
`[0, 100]`, and reaching the maximal value `100` implies `isCompleted`
(the converse fails once the learner navigates back, see the
counterexample). -/
theorem c2_progress_percentage (p : Problem) (ops : List Op)
    (hp : 0 < p.steps.length) :
    progress p (runTrace p ops) =
      (((runTrace p ops).currentStepIndex : ℚ) +
        (if (runTrace p ops).isCompleted then 1 else 0)) / (totalSteps p : ℚ) * 100 ∧
    0 ≤ progress p (runTrace p ops) ∧
    progress p (runTrace p ops) ≤ 100 ∧
    (progress p (runTrace p ops) = 100 → (runTrace p ops).isCompleted = true) := by
  have hlt : (runTrace p ops).currentStepIndex < p.steps.length :=
    runTrace_index_lt p hp ops
  set s := runTrace p ops with hs
  have ht : (0:ℚ) < (totalSteps p : ℚ) := by
    unfold totalSteps
    exact_mod_cast hp
  have hc0 : (0:ℚ) ≤ (if s.isCompleted then (1:ℚ) else 0) := by split <;> norm_num
  have hc1 : (if s.isCompleted then (1:ℚ) else 0) ≤ 1 := by split <;> norm_num
  have hn1 : (s.currentStepIndex : ℚ) + 1 ≤ (totalSteps p : ℚ) := by
    unfold totalSteps
    exact_mod_cast hlt
  refine ⟨rfl, ?_, ?_, ?_⟩
  · unfold progress
    apply mul_nonneg _ (by norm_num)
    exact div_nonneg (add_nonneg (Nat.cast_nonneg _) hc0) (le_of_lt ht)
  · unfold progress
    have hnum : (s.currentStepIndex : ℚ) + (if s.isCompleted then (1:ℚ) else 0) ≤
        (totalSteps p : ℚ) := by linarith
    have hdiv := (div_le_one ht).mpr hnum
    nlinarith
  · intro h100
    by_cases hC : s.isCompleted = true
    · exact hC
    · exfalso
      unfold progress at h100
      rw [if_neg hC, add_zero] at h100
      have htne : (totalSteps p : ℚ) ≠ 0 := ne_of_gt ht
      field_simp at h100
      have : (s.currentStepIndex : ℚ) = (totalSteps p : ℚ) := by linarith
      have : s.currentStepIndex = totalSteps p := by exact_mod_cast this
      unfold totalSteps at this
      omega

/-- C2, witness: the amended progress property instantiated at the fresh
state of the two-step problem. -/
theorem c2_progress_witness :
    0 < P2.steps.length ∧
    (progress P2 (runTrace P2 []) =
      (((runTrace P2 []).currentStepIndex : ℚ) +
        (if (runTrace P2 []).isCompleted then 1 else 0)) / (totalSteps P2 : ℚ) * 100 ∧
    0 ≤ progress P2 (runTrace P2 []) ∧
    progress P2 (runTrace P2 []) ≤ 100 ∧
    (progress P2 (runTrace P2 []) = 100 → (runTrace P2 []).isCompleted = true)) :=
  ⟨by decide, c2_progress_percentage P2 [] (by decide)⟩

/-- `showNextHint` on a state whose current step is `st`: the hint index
advances exactly while it is below `st.hints.length - 1`. -/
theorem showNextHint_hintIndex (p : Problem) (s : LearnState) (st : Step)
    (hcs : currentStep p s = some st) :
    (showNextHint p s).currentHintIndex =
      if (s.currentHintIndex : Int) < (st.hints.length : Int) - 1
      then s.currentHintIndex + 1 else s.currentHintIndex := by
  unfold showNextHint
  rw [hcs]
  dsimp only
  split
  · rfl
  · rfl

/-- C3, counterexample: on the one-step problem `P3`, whose step has three
hints, calling the hint-advancing operation four times from the initial
state leaves the hint counter at `2` (= `hints.length - 1`), not at the
claimed `3`; the source also maintains no per-step hint high-water map at
all. -/
theorem c3_hint_counter_caps_at_two :
    (runTrace P3 [Op.showHint, Op.showHint, Op.showHint, Op.showHint]).currentHintIndex = 2 ∧
    (runTrace P3 [Op.showHint, Op.showHint, Op.showHint, Op.showHint]).currentHintIndex ≠ 3 := by
  decide

/-- C3, amended: on a step with three hints, starting from hint counter 0,
the `k`-th call of `showNextHint` leaves the counter at `min k 2`: each
call increments it by one until it reaches `hints.length - 1 = 2`, where
it stabilizes (further calls are no-ops and it never exceeds 2).  The
source tracks no per-step hint usage. -/
theorem c3_hint_counter_stabilizes (p : Problem) (s : LearnState) (st : Step)
    (hcs : currentStep p s = some st) (hh : st.hints.length = 3)
    (h0 : s.currentHintIndex = 0) :
    ∀ k : Nat, ((fun t => showNextHint p t)^[k] s).currentHintIndex = min k 2 := by
  have key : ∀ k : Nat,
      currentStep p ((fun t => showNextHint p t)^[k] s) = some st ∧
      ((fun t => showNextHint p t)^[k] s).currentHintIndex = min k 2 := by
    intro k
    induction k with
    | zero =>
        refine ⟨hcs, ?_⟩
        simpa using h0
    | succ k ih =>
        obtain ⟨ihc, ihn⟩ := ih
        rw [Function.iterate_succ_apply']
        constructor
        · unfold currentStep at ihc ⊢
          rw [(showNextHint_frame p _).1]
          exact ihc
        · rw [showNextHint_hintIndex p _ st ihc, hh, ihn]
          split
          · rename_i h
            omega
          · rename_i h
            omega
  exact fun k => (key k).2

/-- C3, witness: four hint calls on the three-hint step stop at
`min 4 2 = 2`. -/
theorem c3_hint_witness :
    currentStep P3 (initState P3) = some stepH ∧
    ((fun t => showNextHint P3 t)^[4] (initState P3)).currentHintIndex = min 4 2 :=
  ⟨by decide,
    c3_hint_counter_stabilizes P3 (initState P3) stepH (by decide) (by decide) rfl 4⟩

/-- C4, counterexample: constructing the engine on a problem with zero
steps does not fail and surfaces no error — the source has no emptiness
check, so construction is a total function whose value at the empty
problem is the perfectly ordinary initial state (with an empty code map
and `currentStep` undefined), silently tolerated rather than rejected
with `InvalidProblem`. -/
theorem c4_empty_problem_tolerated :
    initState Pempty =
      { currentStepIndex := 0, userCodeByStep := [], isHintVisible := false,
        currentHintIndex := 0, validationMessage := none, isValidationError := false,
        isCompleted := false, pendingClears := 0 } ∧
    currentStep Pempty (initState Pempty) = none := by
  decide

/-- C4, amended: construction with zero steps is silently tolerated:
`currentStep` is undefined, code updates and hint advances are no-ops, and
validation and submission report failure. -/
theorem c4_empty_problem_noop (p : Problem) (hp : p.steps = []) :
    currentStep p (initState p) = none ∧
    validateStep p (initState p) = false ∧
    (∀ c, updateCode p (initState p) c = initState p) ∧
    showNextHint p (initState p) = initState p ∧
    (submitStep p (initState p)).2 = false := by
  have hcs : currentStep p (initState p) = none := by
    unfold currentStep
    rw [hp]
    rfl
  have hv : validateStep p (initState p) = false := by
    unfold validateStep
    rw [hcs]
  refine ⟨hcs, hv, ?_, ?_, ?_⟩
  · intro c
    unfold updateCode
    rw [hcs]
  · unfold showNextHint
    rw [hcs]
  · simp only [submitStep, hv]
    rfl

/-- C4, witness: the amended tolerant behaviour at the concrete empty
problem. -/
theorem c4_empty_witness :
    currentStep Pempty (initState Pempty) = none ∧
    validateStep Pempty (initState Pempty) = false ∧
    (∀ c, updateCode Pempty (initState Pempty) c = initState Pempty) ∧
    showNextHint Pempty (initState Pempty) = initState Pempty ∧
    (submitStep Pempty (initState Pempty)).2 = false :=
  c4_empty_problem_noop Pempty rfl

/-- C5, confirmed: on a step of `validationType = "regex"` whose rule
compiles (to `r`), `validateStep` succeeds exactly when the compiled
pattern matches some substring of the code, at any position — search
semantics, not a full-string match.  The compiled semantics `RMatch` is
case-insensitive (`chrMatches` compares lowered characters, the `i` flag)
and dot-matches-newline (`RMatch.dot` accepts every character, the `s`
flag). -/
theorem c5_regex_search (p : Problem) (s : LearnState) (st : Step) (r : Regex)
    (hcs : currentStep p s = some st) (hty : st.validationType = "regex")
    (hcomp : compileRegex st.validationRule = some r) :
    (validateStep p s = true ↔
      ∃ pre mid suf : List Char,
        (userCode p s).data = pre ++ mid ++ suf ∧ RMatch r mid) := by
  unfold validateStep
  rw [hcs]
  dsimp only
  rw [hty]
  simp only [beq_self_eq_true, if_true]
  rw [hcomp]
  exact searchFrom_iff (userCode p s).data r

/-- C5, witness: on `P5` (rule `"b"`, code `"abc"`), validation succeeds
iff the compiled pattern matches somewhere inside the code. -/
theorem c5_search_witness :
    currentStep P5 (initState P5) = some stepMid ∧
    compileRegex stepMid.validationRule = some (Regex.seq Regex.eps (Regex.chr 'b')) ∧
    (validateStep P5 (initState P5) = true ↔
      ∃ pre mid suf : List Char,
        (userCode P5 (initState P5)).data = pre ++ mid ++ suf ∧
        RMatch (Regex.seq Regex.eps (Regex.chr 'b')) mid) :=
  ⟨by decide, by decide,
    c5_regex_search P5 (initState P5) stepMid (Regex.seq Regex.eps (Regex.chr 'b'))
      (by decide) rfl (by decide)⟩

/-- C6, confirmed: when the current step's rule does not compile, or its
`validationType` is not `"regex"`, `validateStep` evaluates to `false`.
In the source the `RegExp` exception is caught inside `validateStep`
(and unsupported types never reach the `RegExp` constructor), so no
exception propagates: the embedding is a total function. -/
theorem c6_invalid_rule_false (p : Problem) (s : LearnState) (st : Step)
    (hcs : currentStep p s = some st)
    (h : st.validationType ≠ "regex" ∨ compileRegex st.validationRule = none) :
    validateStep p s = false := by
  unfold validateStep
  rw [hcs]
  dsimp only
  rcases h with h | h
  · have hb : (st.validationType == "regex") = false := beq_eq_false_iff_ne.mpr h
    rw [hb]
    rfl
  · split
    · rw [h]
    · rfl

/-- C6, witness: the unclosed-group rule `"("` of `P6` fails to compile
and validation reports failure. -/
theorem c6_invalid_witness :
    currentStep P6 (initState P6) = some stepBad ∧
    compileRegex stepBad.validationRule = none ∧
    validateStep P6 (initState P6) = false :=
  ⟨by decide, by decide,
    c6_invalid_rule_false P6 (initState P6) stepBad (by decide) (Or.inr (by decide))⟩

/-- C7, confirmed: `validateStep` invokes no state setter in the source,
so its embedding returns the session state unchanged, and two consecutive
calls with no intervening mutation return the same boolean. -/
theorem c7_validate_pure_idempotent (p : Problem) (s : LearnState) :
    (validateStepOp p s).1 = s ∧
    applyOp p s Op.validate = s ∧
    (validateStepOp p ((validateStepOp p s).1)).2 = (validateStepOp p s).2 :=
  ⟨rfl, rfl, rfl⟩

/-- C8, confirmed: a failed submission returns `false` and the entire
state change is setting the feedback to the incorrect-attempt message and
raising `isValidationError`; code map, hint state, step index, completion
flag and pending timeouts are untouched. -/
theorem c8_failure_only_feedback (p : Problem) (s : LearnState)
    (h : validateStep p s = false) :
    (submitStep p s).2 = false ∧
    (submitStep p s).1 =
      { s with validationMessage := some incorrectMsg, isValidationError := true } := by
  simp only [submitStep, h]
  exact ⟨rfl, rfl⟩

/-- C8, witness: the failure frame at the never-validating problem `P8`. -/
theorem c8_failure_witness :
    validateStep P8 (initState P8) = false ∧
    ((submitStep P8 (initState P8)).2 = false ∧
      (submitStep P8 (initState P8)).1 =
        { initState P8 with validationMessage := some incorrectMsg,
                            isValidationError := true }) :=
  ⟨by decide, c8_failure_only_feedback P8 (initState P8) (by decide)⟩

/-- C9, code bug: the deferred clear scheduled by a non-final successful
submission is unconditional (`setValidationMessage(null)` with no cancel
and no guard), so it does clobber a newer message.  On `PF`: submitting
step 1 succeeds and schedules the clear; submitting step 2 fails, setting
the incorrect-attempt message; when the stale timer then fires, the new
message is erased (while `isValidationError` stays `true`), contradicting
the claim — and the source's own comment, which says it clears the
success message. -/
theorem c9_stale_clear_clobbers :
    (runTrace PF [Op.submit, Op.submit]).validationMessage = some incorrectMsg ∧
    (runTrace PF [Op.submit, Op.submit]).isValidationError = true ∧
    (runTrace PF [Op.submit, Op.submit]).pendingClears = 1 ∧
    (runTrace PF [Op.submit, Op.submit, Op.tick]).validationMessage = none ∧
    (runTrace PF [Op.submit, Op.submit, Op.tick]).isValidationError = true := by
  decide

/-- C10, confirmed: once `isCompleted` is `true` it stays `true` under
every operation other than `resetProblem` (including the timer callback),
and `resetProblem` is the operation that sets it back to `false`. -/
theorem c10_completed_persists (p : Problem) (s : LearnState) (op : Op)
    (hc : s.isCompleted = true) :
    (op ≠ Op.reset → (applyOp p s op).isCompleted = true) ∧
    (applyOp p s Op.reset).isCompleted = false := by
  refine ⟨?_, rfl⟩
  intro hop
  cases op with
  | update c =>
      show (updateCode p s c).isCompleted = true
      rw [(updateCode_frame p s c).2.1]
      exact hc
  | toggle => exact hc
  | showHint =>
      show (showNextHint p s).isCompleted = true
      rw [(showNextHint_frame p s).2.1]
      exact hc
  | validate => exact hc
  | submit => exact submitStep_isCompleted p s hc
  | goTo i =>
      show (goToStep p s i).isCompleted = true
      unfold goToStep
      split
      · exact hc
      · exact hc
  | reset => exact absurd rfl hop
  | tick =>
      show (fireClear s).isCompleted = true
      rw [(fireClear_frame s).2]
      exact hc

/-- C10, witness: at the completed state of `P2`, toggling preserves
completion and reset clears it. -/
theorem c10_completed_witness :
    (Op.toggle ≠ Op.reset →
      (applyOp P2 (runTrace P2 [Op.submit, Op.submit]) Op.toggle).isCompleted = true) ∧
    (applyOp P2 (runTrace P2 [Op.submit, Op.submit]) Op.reset).isCompleted = false :=
  c10_completed_persists P2 (runTrace P2 [Op.submit, Op.submit]) Op.toggle (by decide)

end Scaffold
